import Mathlib

/-!
Verification of the backtesting core of the repository: the periodic funding
scheduler, the buy/sell fill logic, the bar-by-bar simulation loop, the date
validation, and the closed-form contribution count of the performance
analyzer.  The Python sources are shallowly embedded: calendar dates become a
`Date` structure with the standard civil-calendar arithmetic (matching
Python's `datetime` semantics, including `isocalendar`), monetary amounts and
prices become rationals, and the strategy's mutable attributes become a
`StratState` record threaded through pure step functions.
-/

namespace Backtesting

/-- A calendar date, as Python's `datetime.date` (year, month, day). -/
structure Date where
  year : Nat
  month : Nat
  day : Nat
deriving DecidableEq, Repr

/-- Gregorian leap-year test, as in Python's `calendar.isleap`. -/
def isLeap (y : Nat) : Bool :=
  (y % 4 == 0 && y % 100 != 0) || y % 400 == 0

/-- Number of days in a month of a given year. -/
def daysInMonth (y m : Nat) : Nat :=
  if m = 2 then (if isLeap y then 29 else 28)
  else if m = 4 ∨ m = 6 ∨ m = 9 ∨ m = 11 then 30
  else 31

/-- A date is valid when its fields are in calendar range (year at least 1,
month 1..12, day within the month). -/
def validDate (d : Date) : Prop :=
  1 ≤ d.year ∧ 1 ≤ d.month ∧ d.month ≤ 12 ∧ 1 ≤ d.day ∧ d.day ≤ daysInMonth d.year d.month

instance (d : Date) : Decidable (validDate d) := by
  unfold validDate; infer_instance

/-- Day count of a date on the proleptic Gregorian calendar (a rata-die style
count, increasing by one per day); used to derive weekdays and date ordering,
mirroring how Python timestamps order chronologically. -/
def civilDays (d : Date) : Nat :=
  let y := if d.month ≤ 2 then d.year - 1 else d.year
  let era := y / 400
  let yoe := y - era * 400
  let mp := (d.month + 9) % 12
  let doy := (153 * mp + 2) / 5 + d.day - 1
  let doe := yoe * 365 + yoe / 4 - yoe / 100 + doy
  era * 146097 + doe

/-- Python's `date.weekday()`: Monday = 0 .. Sunday = 6. -/
def pyWeekday (d : Date) : Nat :=
  (civilDays d + 2) % 7

/-- Day of the year, 1-based, as Python's `date.timetuple().tm_yday`. -/
def ordinalDay (d : Date) : Nat :=
  (List.range (d.month - 1)).foldl (fun acc i => acc + daysInMonth d.year (i + 1)) 0 + d.day

/-- Number of ISO weeks in an ISO year (52 or 53). -/
def isoWeeksInYear (y : Nat) : Nat :=
  let p := fun (x : Nat) => (x + x / 4 - x / 100 + x / 400) % 7
  if p y = 4 ∨ p (y - 1) = 3 then 53 else 52

/-- Python's `date.isocalendar()` restricted to its first two components:
the pair (ISO year, ISO week number). -/
def isoCalendar (d : Date) : Nat × Nat :=
  let wd := pyWeekday d + 1
  let w := (10 + ordinalDay d - wd) / 7
  if w = 0 then (d.year - 1, isoWeeksInYear (d.year - 1))
  else if w > isoWeeksInYear d.year then (d.year + 1, 1)
  else (d.year, w)

/-- The calendar successor of a date. -/
def nextDay (d : Date) : Date :=
  if d.day < daysInMonth d.year d.month then ⟨d.year, d.month, d.day + 1⟩
  else if d.month < 12 then ⟨d.year, d.month + 1, 1⟩
  else ⟨d.year + 1, 1, 1⟩

/-- The list of `n` consecutive calendar days starting at `d`. -/
def rangeFrom (d : Date) : Nat → List Date
  | 0 => []
  | n + 1 => d :: rangeFrom (nextDay d) n

/-- Python's `int()` conversion of a (rational-valued) quotient: truncation
toward zero. -/
def pyInt (q : ℚ) : ℤ :=
  if 0 ≤ q then ⌊q⌋ else ⌈q⌉

/-- The strategy's mutable attributes from `BaseStrategy.__init__` in
`src/backtesting/strategies/base.py`, together with the cash ledger of the
broker the strategy trades through.  `lastPeriod`, `accumulatedCash`,
`totalInvested`, `currentPosition`, `investmentCount` and `sellCount` are the
attributes of the Python class; `brokerCash` models the backtrader broker's
cash balance at the engine's boundary (increased by `broker.add_cash` and by
sell fills, decreased by buy fills, as the specification describes the
reference broker). -/
structure StratState where
  lastPeriod : Option (List Nat)
  accumulatedCash : ℚ
  totalInvested : ℚ
  brokerCash : ℚ
  currentPosition : Nat
  investmentCount : Nat
  sellCount : Nat
deriving DecidableEq, Repr

/-- The strategy state at the start of a run: counters zero, no period marker
recorded, broker seeded with the initial cash (`cerebro.broker.setcash`). -/
def initState (initialCash : ℚ) : StratState :=
  { lastPeriod := none
    accumulatedCash := 0
    totalInvested := 0
    brokerCash := initialCash
    currentPosition := 0
    investmentCount := 0
    sellCount := 0 }

/-- The market-open check `BaseStrategy._is_market_open`: weekends, New
Year's Day, Independence Day, Christmas Day, and the fourth Thursday of
November are not trading days. -/
def isMarketOpen (d : Date) : Bool :=
  if pyWeekday d ≥ 5 then false
  else if d.month = 1 ∧ d.day = 1 then false
  else if d.month = 7 ∧ d.day = 4 then false
  else if d.month = 12 ∧ d.day = 25 then false
  else if d.month = 11 ∧ pyWeekday d = 3 ∧ (d.day - 1) / 7 + 1 = 4 then false
  else true

/-- The period marker computed by `BaseStrategy.add_cash_periodically` from
the current date and the configured frequency.  Python builds tuples of
varying arity; they are encoded as lists of naturals. -/
def periodMarker (freq : String) (d : Date) : List Nat :=
  if freq = "weekly" then [d.year, (isoCalendar d).2]
  else if freq = "monthly" then [d.year, d.month]
  else if freq = "quarterly" then [d.year, (d.month - 1) / 3]
  else if freq = "yearly" then [d.year]
  else [d.year, d.month]

/-- `BaseStrategy.add_cash_periodically`: on a market-open day whose period
marker is new (no marker stored yet, or a different one stored), add the
contribution to the broker's cash, to `accumulated_cash` and to
`total_invested`, record the marker and report `True`; otherwise leave the
state unchanged and report `False`. -/
def addCashPeriodically (amount : ℚ) (freq : String) (d : Date) (s : StratState) :
    Bool × StratState :=
  if ¬ isMarketOpen d then (false, s)
  else
    let pm := periodMarker freq d
    if s.lastPeriod = none ∨ some pm ≠ s.lastPeriod then
      (true,
        { s with
          brokerCash := s.brokerCash + amount
          accumulatedCash := s.accumulatedCash + amount
          totalInvested := s.totalInvested + amount
          lastPeriod := some pm })
    else (false, s)

/-- `BaseStrategy.invest_accumulated_cash`: if there is accumulated cash,
buy `int(accumulated_cash / close)` shares at the close price; when that is
at least one share, deduct the invested amount from the accumulated cash and
the broker's cash, grow the position and count the buy.  Returns the amount
invested (0 when no fill occurs). -/
def investAccumulatedCash (close : ℚ) (s : StratState) : ℚ × StratState :=
  if s.accumulatedCash > 0 then
    let size := pyInt (s.accumulatedCash / close)
    if size > 0 then
      let invested := (size : ℚ) * close
      (invested,
        { s with
          brokerCash := s.brokerCash - invested
          accumulatedCash := s.accumulatedCash - invested
          investmentCount := s.investmentCount + 1
          currentPosition := s.currentPosition + size.toNat })
    else (0, s)
  else (0, s)

/-- `BaseStrategy.sell_position`: if shares are held, sell
`int(current_position * portion)` of them at the close price; the proceeds
go to the broker's cash, the position shrinks and the sell is counted.  The
strategy's `accumulated_cash` attribute is not touched.  Returns the amount
sold (0 when no fill occurs). -/
def sellPosition (close : ℚ) (portion : ℚ) (s : StratState) : ℚ × StratState :=
  if s.currentPosition > 0 then
    let sharesToSell := pyInt ((s.currentPosition : ℚ) * portion)
    if sharesToSell > 0 then
      let sold := (sharesToSell : ℚ) * close
      (sold,
        { s with
          brokerCash := s.brokerCash + sold
          currentPosition := s.currentPosition - sharesToSell.toNat
          sellCount := s.sellCount + 1 })
    else (0, s)
  else (0, s)

/-- `BaseStrategy._execute_strategy`: add cash for the period, then act on
the sell signal (full liquidation, `portion = 1`), then act on the buy
signal.  The signals are the values of the strategy's `should_sell` /
`should_invest` predicates on this bar. -/
def executeStrategy (sellSig buySig : Bool) (amount : ℚ) (freq : String)
    (d : Date) (close : ℚ) (s : StratState) : StratState :=
  let s1 := (addCashPeriodically amount freq d s).2
  let s2 := if sellSig then (sellPosition close 1 s1).2 else s1
  if buySig then (investAccumulatedCash close s2).2 else s2

/-- Modelled from the spec: the backtrader broker's `getvalue()` at the
engine's boundary — total portfolio value, the broker's cash plus the
current position marked at the bar's close price. -/
def brokerGetValue (close : ℚ) (s : StratState) : ℚ :=
  s.brokerCash + (s.currentPosition : ℚ) * close

/-- One bar of a run as the engine sees it: the bar's date and close price,
and the strategy's sell/buy signal values on that bar. -/
structure Bar where
  date : Date
  close : ℚ
  sellSig : Bool
  buySig : Bool
deriving DecidableEq, Repr

/-- `BaseStrategy.next` iterated over the bars of a run: on each bar, first
record `(date, broker.getvalue())` on the equity curve, then execute the
strategy logic.  Returns the final state and the equity curve in bar
order. -/
def runBars (amount : ℚ) (freq : String) (s : StratState) :
    List Bar → StratState × List (Date × ℚ)
  | [] => (s, [])
  | b :: bs =>
    let pv := brokerGetValue b.close s
    let s' := executeStrategy b.sellSig b.buySig amount freq b.date b.close s
    let rest := runBars amount freq s' bs
    (rest.1, (b.date, pv) :: rest.2)

/-- The funding scheduler alone, folded over the dates of the bars it
processes (one call to `add_cash_periodically` per bar). -/
def schedFold (amount : ℚ) (freq : String) (l : List Date) (s : StratState) : StratState :=
  l.foldl (fun s d => (addCashPeriodically amount freq d s).2) s

/-- Specification-side view of the scheduler's memory: the period key of the
most recent bar of the run so far that passed the trading-day check, if any.
Defined from the list of dates alone, with no reference to the scheduler's
state. -/
def prevValidKey (freq : String) (l : List Date) : Option (List Nat) :=
  ((l.filter isMarketOpen).map (periodMarker freq)).getLast?

/-- Specification-side count of scheduler firings over a sequence of period
keys, starting from an optional previously stored key: a key is counted
whenever it differs from its predecessor (the first key counts when it
differs from the stored one; with nothing stored it always counts). -/
def fireCount : Option (List Nat) → List (List Nat) → Nat
  | _, [] => 0
  | prev, k :: ks => (if some k ≠ prev then 1 else 0) + fireCount (some k) ks

/-- `DataManager.validate_date_range` compares pandas timestamps; at day
granularity this is chronological order of dates, lexicographic on
(year, month, day). -/
def dateLt (a b : Date) : Prop :=
  a.year < b.year ∨ (a.year = b.year ∧
    (a.month < b.month ∨ (a.month = b.month ∧ a.day < b.day)))

instance (a b : Date) : Decidable (dateLt a b) := by
  unfold dateLt; infer_instance

/-- `DataManager.validate_date_range`: reject when the start is not strictly
before the end, when the start is before 1990-01-01, or when the end is
after the current date (`datetime.now()`, passed here as `now`).  The Python
code raises `ValueError`; the embedding returns the error message. -/
def validateDateRange (now start stop : Date) : Except String Unit :=
  if ¬ dateLt start stop then .error "Start date must be before end date"
  else if dateLt start ⟨1990, 1, 1⟩ then .error "Start date cannot be before 1990"
  else if dateLt now stop then .error "End date cannot be in the future"
  else .ok ()

/-- `BacktestEngine.run_backtest`, restricted to the simulation core: the
date range is validated first, and only on success is the strategy run over
the bars; on a validation error nothing is simulated and the error is
reported to the caller. -/
def runBacktest (now start stop : Date) (initialCash amount : ℚ) (freq : String)
    (bars : List Bar) : Except String (StratState × List (Date × ℚ)) :=
  match validateDateRange now start stop with
  | .error msg => .error msg
  | .ok _ => .ok (runBars amount freq (initState initialCash) bars)

/-- The closed-form period count of
`BacktestEngine._calculate_performance_metrics`: weekly counts elapsed
7-day blocks, monthly counts month differences, quarterly divides the month
difference by three, yearly counts year differences.  Python's floor
division `//` is `Int.fdiv`. -/
def periodsClosedForm (freq : String) (start stop : Date) : ℤ :=
  if freq = "weekly" then
    Int.fdiv ((civilDays stop : ℤ) - (civilDays start : ℤ)) 7 + 1
  else if freq = "monthly" then
    ((stop.year : ℤ) - (start.year : ℤ)) * 12 + ((stop.month : ℤ) - (start.month : ℤ)) + 1
  else if freq = "quarterly" then
    ((stop.year : ℤ) - (start.year : ℤ)) * 4
      + Int.fdiv ((stop.month : ℤ) - (start.month : ℤ)) 3 + 1
  else if freq = "yearly" then
    ((stop.year : ℤ) - (start.year : ℤ)) + 1
  else
    ((stop.year : ℤ) - (start.year : ℤ)) * 12 + ((stop.month : ℤ) - (start.month : ℤ)) + 1

/-- The analyzer's `total_invested`:
`initial_cash + periods * investment_amount`. -/
def totalInvestedMetric (initialCash amount : ℚ) (freq : String) (start stop : Date) : ℚ :=
  initialCash + (periodsClosedForm freq start stop : ℚ) * amount

/-- All inputs of one simulation run, bundled. -/
structure RunInputs where
  now : Date
  start : Date
  stop : Date
  initialCash : ℚ
  amount : ℚ
  freq : String
  bars : List Bar
deriving DecidableEq

/-- A whole run as a function of its inputs. -/
def runOnInputs (i : RunInputs) : Except String (StratState × List (Date × ℚ)) :=
  runBacktest i.now i.start i.stop i.initialCash i.amount i.freq i.bars

/-- Month index used to reason about consecutive monthly period keys. -/
def monthIdx (d : Date) : Nat :=
  12 * d.year + d.month

/-- The list of calendar days from `start` to `stop` inclusive (for
`start ≤ stop`). -/
def dateRangeList (start stop : Date) : List Date :=
  rangeFrom start (civilDays stop - civilDays start + 1)

/-- First `some`, else the second option. -/
def optOr {α : Type} (a b : Option α) : Option α :=
  match a with
  | some x => some x
  | none => b

/-- A strategy state holding five shares and no accumulated cash, used to
exercise the same-bar sell-then-buy interaction. -/
def c3State : StratState :=
  { lastPeriod := none
    accumulatedCash := 0
    totalInvested := 0
    brokerCash := 0
    currentPosition := 5
    investmentCount := 0
    sellCount := 0 }

/-- The state after `c3State` processes a bar with both signals true at close
price 10 on a non-trading day: the five shares are sold for 50 into the
broker's cash, and no buy follows. -/
def c3After : StratState :=
  { lastPeriod := none
    accumulatedCash := 0
    totalInvested := 0
    brokerCash := 50
    currentPosition := 0
    investmentCount := 0
    sellCount := 1 }

/-- A strategy state with 25 accumulated (and broker) cash, used to exercise
a buy fill at price 10. -/
def c4State : StratState :=
  { lastPeriod := none
    accumulatedCash := 25
    totalInvested := 25
    brokerCash := 25
    currentPosition := 0
    investmentCount := 0
    sellCount := 0 }

/-- The state after `c4State` buys 2 shares at price 10. -/
def c4After : StratState :=
  { lastPeriod := none
    accumulatedCash := 5
    totalInvested := 25
    brokerCash := 5
    currentPosition := 2
    investmentCount := 1
    sellCount := 0 }

/-- A concrete two-bar run used as a witness input. -/
def exBars : List Bar :=
  [{ date := ⟨2020, 1, 6⟩, close := 10, sellSig := false, buySig := false },
   { date := ⟨2020, 1, 7⟩, close := 12, sellSig := false, buySig := true }]

/-- Concrete run inputs used as a witness input. -/
def exInputs : RunInputs :=
  { now := ⟨2026, 10, 12⟩
    start := ⟨2020, 1, 6⟩
    stop := ⟨2020, 1, 7⟩
    initialCash := 1000
    amount := 500
    freq := "monthly"
    bars := exBars }

/-- C2 counterexample date: Monday 2019-12-30, whose calendar year is 2019
but whose ISO year is 2020 (ISO week 1). -/
def c2Date : Date := ⟨2019, 12, 30⟩

end Backtesting

namespace Backtesting

/-- C2 (counterexample): on 2019-12-30 the weekly period marker computed by
`add_cash_periodically` is `(2019, 1)` — calendar year paired with ISO week —
whereas the pair (ISO year, ISO week number) is `(2020, 1)`; the two differ,
so the weekly key does not use the ISO year. -/
theorem weekly_marker_ne_iso_pair_at_2019_12_30 :
    periodMarker "weekly" c2Date ≠ [(isoCalendar c2Date).1, (isoCalendar c2Date).2] ∧
    periodMarker "weekly" c2Date = [2019, 1] ∧
    isoCalendar c2Date = (2020, 1) := by
  refine ⟨?_, ?_, ?_⟩ <;> decide

/-- C2 (amended): for every date, the weekly period marker is the pair
(calendar year, ISO week number); it coincides with the pair
(ISO year, ISO week number) exactly when the date's ISO year equals its
calendar year. -/
theorem weekly_marker_uses_calendar_year (d : Date) :
    periodMarker "weekly" d = [d.year, (isoCalendar d).2] ∧
    (periodMarker "weekly" d = [(isoCalendar d).1, (isoCalendar d).2] ↔
      d.year = (isoCalendar d).1) := by
  constructor
  · rfl
  · constructor
    · intro h
      have h' : [d.year, (isoCalendar d).2] = [(isoCalendar d).1, (isoCalendar d).2] := h
      simpa using h'
    · intro h
      show [d.year, (isoCalendar d).2] = _
      rw [h]

/-- C7: when the trading-day check rejects the current bar's date, the
scheduler does not fire and leaves the whole state (in particular the stored
period marker) unchanged; a later bar on a valid trading day whose marker is
not the stored one then fires. -/
theorem scheduler_skips_closed_days (amount : ℚ) (freq : String) (d d' : Date)
    (s : StratState) (h : isMarketOpen d = false) (h' : isMarketOpen d' = true)
    (hk : s.lastPeriod ≠ some (periodMarker freq d')) :
    addCashPeriodically amount freq d s = (false, s) ∧
    (addCashPeriodically amount freq d' ((addCashPeriodically amount freq d s).2)).1 = true := by
  have h1 : addCashPeriodically amount freq d s = (false, s) := by
    simp [addCashPeriodically, h]
  refine ⟨h1, ?_⟩
  rw [h1]
  simp only [addCashPeriodically]
  rw [if_neg (by simp [h']), if_pos (Or.inr (Ne.symm hk))]

/-- C7 witness: 2023-07-04 is a Tuesday but Independence Day, so the
scheduler skips it; on 2023-07-05 (a Wednesday, same month) it fires. -/
theorem scheduler_skips_closed_days_witness :
    addCashPeriodically 500 "monthly" ⟨2023, 7, 4⟩ (initState 10000) = (false, initState 10000) ∧
    (addCashPeriodically 500 "monthly" ⟨2023, 7, 5⟩
      ((addCashPeriodically 500 "monthly" ⟨2023, 7, 4⟩ (initState 10000)).2)).1 = true :=
  scheduler_skips_closed_days 500 "monthly" ⟨2023, 7, 4⟩ ⟨2023, 7, 5⟩ (initState 10000)
    (by decide) (by decide) (by decide)

/-- C10: any frequency string other than the four recognized ones is not
rejected; the period marker falls through to the monthly `(year, month)` key,
so the scheduler behaves exactly as with frequency `monthly`. -/
theorem unknown_freq_behaves_like_monthly (freq : String)
    (h1 : freq ≠ "weekly") (h2 : freq ≠ "monthly") (h3 : freq ≠ "quarterly")
    (h4 : freq ≠ "yearly") (amount : ℚ) (d : Date) (s : StratState) :
    periodMarker freq d = periodMarker "monthly" d ∧
    addCashPeriodically amount freq d s = addCashPeriodically amount "monthly" d s := by
  have hm : periodMarker freq d = periodMarker "monthly" d := by
    unfold periodMarker
    rw [if_neg h1, if_neg h2, if_neg h3, if_neg h4]
    rfl
  refine ⟨hm, ?_⟩
  unfold addCashPeriodically
  rw [hm]

/-- C10 witness: the unrecognized frequency string `daily` produces the
monthly period marker and the monthly scheduler behavior. -/
theorem unknown_freq_behaves_like_monthly_witness :
    periodMarker "daily" ⟨2020, 3, 5⟩ = periodMarker "monthly" ⟨2020, 3, 5⟩ ∧
    addCashPeriodically 500 "daily" ⟨2020, 3, 5⟩ (initState 10000) =
      addCashPeriodically 500 "monthly" ⟨2020, 3, 5⟩ (initState 10000) :=
  unknown_freq_behaves_like_monthly "daily" (by decide) (by decide) (by decide) (by decide)
    500 ⟨2020, 3, 5⟩ (initState 10000)

/-- C8: a date range with start not before end, start before the 1990-01-01
floor, or end after the current date is rejected by validation before the
simulation starts: `run_backtest` returns the validation error and never
processes a bar (no equity curve or final state is produced). -/
theorem invalid_date_range_rejected (now start stop : Date) (initialCash amount : ℚ)
    (freq : String) (bars : List Bar)
    (h : ¬ dateLt start stop ∨ dateLt start ⟨1990, 1, 1⟩ ∨ dateLt now stop) :
    ∃ msg, runBacktest now start stop initialCash amount freq bars = Except.error msg := by
  unfold runBacktest validateDateRange
  rcases h with h | h | h
  · rw [if_pos h]
    exact ⟨_, rfl⟩
  · by_cases hse : dateLt start stop
    · rw [if_neg (by simpa using hse), if_pos h]
      exact ⟨_, rfl⟩
    · rw [if_pos hse]
      exact ⟨_, rfl⟩
  · by_cases hse : dateLt start stop
    · by_cases hfl : dateLt start ⟨1990, 1, 1⟩
      · rw [if_neg (by simpa using hse), if_pos hfl]
        exact ⟨_, rfl⟩
      · rw [if_neg (by simpa using hse), if_neg hfl, if_pos h]
        exact ⟨_, rfl⟩
    · rw [if_pos hse]
      exact ⟨_, rfl⟩

/-- C8 witness: a range whose start equals its end is rejected. -/
theorem invalid_date_range_rejected_witness :
    ∃ msg, runBacktest ⟨2026, 10, 12⟩ ⟨2020, 1, 1⟩ ⟨2020, 1, 1⟩ 10000 500 "monthly" exBars =
      Except.error msg :=
  invalid_date_range_rejected ⟨2026, 10, 12⟩ ⟨2020, 1, 1⟩ ⟨2020, 1, 1⟩ 10000 500 "monthly"
    exBars (Or.inl (by decide))

/-- C9: the simulation core is deterministic — two runs on equal inputs
(price bars with signals, dates, initial cash, contribution amount and
frequency) produce equal results, equity curve and final state included.
The embedded core is a pure function of `RunInputs`; the Python core invokes
no randomness (the mock-data generator is outside the core). -/
theorem run_deterministic (i j : RunInputs) (h : i = j) :
    runOnInputs i = runOnInputs j := by
  rw [h]

/-- C9 witness: replaying the concrete example inputs yields the identical
result. -/
theorem run_deterministic_witness : runOnInputs exInputs = runOnInputs exInputs :=
  run_deterministic exInputs exInputs rfl

/-- C1 (counterexample): the very first bar ever processed does not always
fire a contribution — on 2021-01-01 (a Friday, but New Year's Day) the
scheduler, with `last_funding_period` unset, adds nothing and leaves the
state unchanged. -/
theorem first_bar_no_contribution_on_holiday :
    (addCashPeriodically 500 "monthly" ⟨2021, 1, 1⟩ (initState 10000)).1 = false ∧
    (addCashPeriodically 500 "monthly" ⟨2021, 1, 1⟩ (initState 10000)).2 = initState 10000 := by
  refine ⟨?_, ?_⟩ <;> decide

/-- C3 (counterexample): freed sell proceeds are not eligible for the same
bar's buy evaluation.  Starting from five shares held and zero accumulated
cash, on a bar (a Saturday, so no contribution interferes) where both the
sell and the buy signal are true with close price 10: the full position is
sold for 50 into the broker's cash, yet no buy occurs — the buy sizing reads
`accumulated_cash`, which the sale did not credit — even though the freed 50
would afford `floor(50 / 10) = 5` shares. -/
theorem freed_cash_not_available_same_bar :
    executeStrategy true true 500 "monthly" ⟨2020, 1, 11⟩ 10 c3State = c3After ∧
    c3After.sellCount = 1 ∧ c3After.currentPosition = 0 ∧ c3After.brokerCash = 50 ∧
    c3After.investmentCount = 0 ∧ c3After.accumulatedCash = 0 ∧
    pyInt ((50 : ℚ) / 10) = 5 := by
  have hopen : isMarketOpen ⟨2020, 1, 11⟩ = false := by decide
  refine ⟨?_, rfl, rfl, rfl, rfl, rfl, ?_⟩
  · norm_num [executeStrategy, addCashPeriodically, sellPosition, investAccumulatedCash,
      pyInt, c3State, c3After, hopen]
  · norm_num [pyInt]

/-- Python's truncation agrees with the floor on non-negative values. -/
theorem pyInt_of_nonneg (q : ℚ) (h : 0 ≤ q) : pyInt q = ⌊q⌋ :=
  if_pos h

/-- With the default portion 1, a sell liquidates the whole position: all
held shares are sold at the close, the proceeds are credited to the broker's
cash, the sell is counted, and the position drops to zero. -/
theorem sellPosition_full (close : ℚ) (s : StratState) (h : 0 < s.currentPosition) :
    sellPosition close 1 s =
      ((s.currentPosition : ℚ) * close,
       { s with
         brokerCash := s.brokerCash + (s.currentPosition : ℚ) * close
         currentPosition := 0
         sellCount := s.sellCount + 1 }) := by
  have hfl : pyInt ((s.currentPosition : ℚ) * 1) = (s.currentPosition : ℤ) := by
    rw [mul_one, pyInt_of_nonneg _ (by positivity)]
    exact Int.floor_natCast _
  simp only [sellPosition]
  rw [if_pos h, hfl, if_pos (by exact_mod_cast h)]
  simp [Nat.sub_self]

/-- C3 (amended): on every bar the engine evaluates the sell signal before
the buy signal; a true sell signal with shares held liquidates the full
position at the bar's close, credits the proceeds to the broker's cash and
increments the sell count — but a sell never changes the strategy's
`accumulated_cash`, the pool from which the subsequent same-bar buy
evaluation sizes its fill, so freed sell proceeds are not available for the
same bar's buy. -/
theorem sell_evaluated_before_buy (b : Bool) (amount close : ℚ) (freq : String)
    (d : Date) (s : StratState) :
    executeStrategy true b amount freq d close s =
      (let s1 := (addCashPeriodically amount freq d s).2
       let s2 :=
         if 0 < s1.currentPosition then
           { s1 with
             brokerCash := s1.brokerCash + (s1.currentPosition : ℚ) * close
             currentPosition := 0
             sellCount := s1.sellCount + 1 }
         else s1
       if b then (investAccumulatedCash close s2).2 else s2) ∧
    ∀ s' : StratState, ((sellPosition close 1 s').2).accumulatedCash = s'.accumulatedCash := by
  constructor
  · show (let s1 := (addCashPeriodically amount freq d s).2
          let s2 := if true then (sellPosition close 1 s1).2 else s1
          if b then (investAccumulatedCash close s2).2 else s2) = _
    by_cases hpos : 0 < ((addCashPeriodically amount freq d s).2).currentPosition
    · simp only [if_true, sellPosition_full _ _ hpos, if_pos hpos]
    · have hz : sellPosition close 1 ((addCashPeriodically amount freq d s).2) =
          (0, (addCashPeriodically amount freq d s).2) := by
        simp only [sellPosition]
        rw [if_neg hpos]
      simp only [if_true, hz, if_neg hpos]
  · intro s'
    by_cases h1 : 0 < s'.currentPosition
    · simp only [sellPosition, if_pos h1]
      split <;> rfl
    · simp [sellPosition, h1]

/-- C4: when a buy fires with positive accumulated cash, the engine buys
`floor(accumulated_cash / close)` shares: if that is at least one it adds
the shares to the position, deducts `shares * close` from the accumulated
cash (leaving a remainder that is non-negative and below the close price)
and counts the buy; if it is zero the state is unchanged, with no error. -/
theorem buy_fill_floor_division (s : StratState) (p : ℚ) (hp : 0 < p)
    (hc : 0 < s.accumulatedCash) :
    ((1 : ℤ) ≤ ⌊s.accumulatedCash / p⌋ →
      investAccumulatedCash p s =
        ((⌊s.accumulatedCash / p⌋ : ℚ) * p,
         { s with
           brokerCash := s.brokerCash - (⌊s.accumulatedCash / p⌋ : ℚ) * p
           accumulatedCash := s.accumulatedCash - (⌊s.accumulatedCash / p⌋ : ℚ) * p
           investmentCount := s.investmentCount + 1
           currentPosition := s.currentPosition + (⌊s.accumulatedCash / p⌋).toNat }) ∧
      0 ≤ s.accumulatedCash - (⌊s.accumulatedCash / p⌋ : ℚ) * p ∧
      s.accumulatedCash - (⌊s.accumulatedCash / p⌋ : ℚ) * p < p) ∧
    (⌊s.accumulatedCash / p⌋ = 0 → investAccumulatedCash p s = (0, s)) := by
  have hq : (0 : ℚ) ≤ s.accumulatedCash / p := div_nonneg hc.le hp.le
  have hpy : pyInt (s.accumulatedCash / p) = ⌊s.accumulatedCash / p⌋ := pyInt_of_nonneg _ hq
  have hle : (⌊s.accumulatedCash / p⌋ : ℚ) ≤ s.accumulatedCash / p := Int.floor_le _
  have hlt : s.accumulatedCash / p < ⌊s.accumulatedCash / p⌋ + 1 := Int.lt_floor_add_one _
  have hle' : (⌊s.accumulatedCash / p⌋ : ℚ) * p ≤ s.accumulatedCash := (le_div_iff₀ hp).1 hle
  have hlt' : s.accumulatedCash < ((⌊s.accumulatedCash / p⌋ : ℚ) + 1) * p := (div_lt_iff₀ hp).1 hlt
  constructor
  · intro h1
    refine ⟨?_, by linarith, by nlinarith⟩
    simp only [investAccumulatedCash]
    rw [if_pos hc, hpy, if_pos (by exact_mod_cast h1 : (0 : ℤ) < ⌊s.accumulatedCash / p⌋)]
  · intro h0
    simp only [investAccumulatedCash]
    rw [if_pos hc, hpy, h0, if_neg (lt_irrefl 0)]

/-- C4 witness: with 25 accumulated cash and close price 10, the engine buys
`floor(25 / 10) = 2` shares for 20, leaving 5 (non-negative and below 10). -/
theorem buy_fill_floor_division_witness :
    investAccumulatedCash 10 c4State = (20, c4After) := by
  have hfl : ⌊c4State.accumulatedCash / (10 : ℚ)⌋ = 2 := by norm_num [c4State]
  have h := ((buy_fill_floor_division c4State 10 (by norm_num)
    (by norm_num [c4State])).1 (by rw [hfl]; norm_num)).1
  rw [hfl] at h
  rw [h]
  norm_num [c4State, c4After, Prod.ext_iff]
  rfl

/-- The equity curve has exactly one entry per bar. -/
theorem runBars_length (a : ℚ) (f : String) :
    ∀ (bars : List Bar) (s : StratState), ((runBars a f s bars).2).length = bars.length
  | [], _ => rfl
  | b :: bs, s => by
    simp [runBars, runBars_length a f bs]

/-- Each equity-curve entry pairs the bar's date with the portfolio value of
the state reached after the preceding bars, marked at this bar's close. -/
theorem runBars_entry (a : ℚ) (f : String) (bars : List Bar) :
    ∀ (s : StratState) (i : ℕ) (h : i < bars.length),
      ((runBars a f s bars).2)[i]? =
        some ((bars[i]).date,
          brokerGetValue (bars[i]).close (runBars a f s (bars.take i)).1) := by
  induction bars with
  | nil =>
    intro s i h
    exact absurd h (by simp)
  | cons b bs ih =>
    intro s i h
    cases i with
    | zero => simp [runBars]
    | succ i =>
      have hb : i < bs.length := by simpa using h
      simpa [runBars] using
        ih (executeStrategy b.sellSig b.buySig a f b.date b.close s) i hb

/-- C5: a run appends one equity-curve entry per bar, and the value recorded
on each bar is exactly the broker's uninvested cash plus the shares held
times that bar's close price, taken at the state the run has reached when
the bar is recorded. -/
theorem equity_curve_identity (amount : ℚ) (freq : String) (initialCash : ℚ)
    (bars : List Bar) :
    ((runBars amount freq (initState initialCash) bars).2).length = bars.length ∧
    ∀ i, (h : i < bars.length) →
      ((runBars amount freq (initState initialCash) bars).2)[i]? =
        some ((bars[i]).date,
          brokerGetValue (bars[i]).close
            (runBars amount freq (initState initialCash) (bars.take i)).1) :=
  ⟨runBars_length amount freq bars (initState initialCash),
   fun i h => runBars_entry amount freq bars (initState initialCash) i h⟩

/-- C5 witness: on the two-bar example run, the second equity-curve entry is
the second bar's date paired with the portfolio value after the first bar,
at the second bar's close. -/
theorem equity_curve_identity_witness :
    ((runBars 500 "monthly" (initState 1000) exBars).2)[1]? =
      some ((⟨2020, 1, 7⟩ : Date),
        brokerGetValue 12 (runBars 500 "monthly" (initState 1000) (exBars.take 1)).1) := by
  have h := (equity_curve_identity 500 "monthly" 1000 exBars).2 1 (by decide)
  simpa [exBars] using h

/-- Every month has at least one day. -/
theorem one_le_daysInMonth (y m : ℕ) : 1 ≤ daysInMonth y m := by
  unfold daysInMonth
  split_ifs <;> norm_num

/-- The calendar successor of a valid date is valid. -/
theorem valid_nextDay {d : Date} (h : validDate d) : validDate (nextDay d) := by
  obtain ⟨hy, hm1, hm2, hd1, hd2⟩ := h
  unfold nextDay
  split_ifs with h1 h2
  · exact ⟨hy, hm1, hm2, by dsimp only; omega, by dsimp only; omega⟩
  · exact ⟨hy, by dsimp only; omega, by dsimp only; omega, by dsimp only; omega,
      by dsimp only; exact one_le_daysInMonth _ _⟩
  · exact ⟨by dsimp only; omega, by dsimp only; omega, by dsimp only; omega,
      by dsimp only; omega, by dsimp only; exact one_le_daysInMonth _ _⟩

/-- Stepping one day forward keeps the month index or raises it by one. -/
theorem monthIdx_nextDay {d : Date} (h : validDate d) :
    monthIdx (nextDay d) = monthIdx d ∨ monthIdx (nextDay d) = monthIdx d + 1 := by
  obtain ⟨hy, hm1, hm2, hd1, hd2⟩ := h
  unfold nextDay monthIdx
  split_ifs with h1 h2
  · exact Or.inl rfl
  · refine Or.inr ?_
    dsimp only
    omega
  · refine Or.inr ?_
    dsimp only
    omega

/-- Every date in a forward range from a valid date is valid and has month
index at least that of the range's start. -/
theorem rangeFrom_mem :
    ∀ (m : ℕ) (d : Date), validDate d → ∀ x ∈ rangeFrom d m,
      validDate x ∧ monthIdx d ≤ monthIdx x := by
  intro m
  induction m with
  | zero =>
    intro d _ x hx
    exact absurd hx (by simp [rangeFrom])
  | succ m ih =>
    intro d hd x hx
    rw [rangeFrom, List.mem_cons] at hx
    rcases hx with rfl | hx
    · exact ⟨hd, le_refl _⟩
    · obtain ⟨hv, hle⟩ := ih (nextDay d) (valid_nextDay hd) x hx
      refine ⟨hv, le_trans ?_ hle⟩
      rcases monthIdx_nextDay hd with h | h <;> omega

/-- Iterating the day successor preserves validity and is monotone in the
month index. -/
theorem valid_iter (d : Date) (hd : validDate d) :
    ∀ n : ℕ, validDate (nextDay^[n] d) ∧ monthIdx d ≤ monthIdx (nextDay^[n] d) := by
  intro n
  induction n with
  | zero => exact ⟨hd, le_refl _⟩
  | succ n ih =>
    rw [Function.iterate_succ_apply']
    obtain ⟨hv, hle⟩ := ih
    refine ⟨valid_nextDay hv, le_trans hle ?_⟩
    rcases monthIdx_nextDay hv with h | h <;> omega

/-- Two valid dates produce the same monthly period marker exactly when
their month indices agree. -/
theorem monthlyMarker_eq_iff {a b : Date} (ha : validDate a) (hb : validDate b) :
    periodMarker "monthly" a = periodMarker "monthly" b ↔ monthIdx a = monthIdx b := by
  obtain ⟨_, ham1, ham2, _, _⟩ := ha
  obtain ⟨_, hbm1, hbm2, _, _⟩ := hb
  have h1 : periodMarker "monthly" a = [a.year, a.month] := rfl
  have h2 : periodMarker "monthly" b = [b.year, b.month] := rfl
  rw [h1, h2]
  unfold monthIdx
  constructor
  · intro h
    simp only [List.cons.injEq, and_true] at h
    omega
  · intro h
    have hy : a.year = b.year := by omega
    have hm : a.month = b.month := by omega
    rw [hy, hm]

/-- The number of distinct monthly period keys among `n + 1` consecutive
days equals the difference of the month indices of the endpoints plus
one. -/
theorem monthly_touched :
    ∀ (n : ℕ) (s : Date), validDate s →
      (((rangeFrom s (n + 1)).map (periodMarker "monthly")).toFinset).card
        = monthIdx (nextDay^[n] s) - monthIdx s + 1 := by
  intro n
  induction n with
  | zero =>
    intro s _
    simp [rangeFrom]
  | succ n ih =>
    intro s hs
    have hvn : validDate (nextDay s) := valid_nextDay hs
    have hkeys : rangeFrom s (n + 2) = s :: rangeFrom (nextDay s) (n + 1) := rfl
    rcases monthIdx_nextDay hs with heq | hsucc
    · have hk : periodMarker "monthly" s = periodMarker "monthly" (nextDay s) :=
        (monthlyMarker_eq_iff hs hvn).2 heq.symm
      have hmem : periodMarker "monthly" s ∈
          ((rangeFrom (nextDay s) (n + 1)).map (periodMarker "monthly")) := by
        rw [hk]
        exact List.mem_map_of_mem _ (by rw [rangeFrom]; exact List.mem_cons_self _ _)
      rw [hkeys]
      simp only [List.map_cons, List.toFinset_cons]
      rw [Finset.insert_eq_self.2 (List.mem_toFinset.2 hmem)]
      rw [ih (nextDay s) hvn, Function.iterate_succ_apply, heq]
    · have hnotmem : periodMarker "monthly" s ∉
          ((rangeFrom (nextDay s) (n + 1)).map (periodMarker "monthly")).toFinset := by
        intro hmem
        rw [List.mem_toFinset, List.mem_map] at hmem
        obtain ⟨x, hx, hxk⟩ := hmem
        obtain ⟨hxv, hxle⟩ := rangeFrom_mem (n + 1) (nextDay s) hvn x hx
        have hxi : monthIdx x = monthIdx s := (monthlyMarker_eq_iff hxv hs).1 hxk
        omega
      rw [hkeys]
      simp only [List.map_cons, List.toFinset_cons]
      rw [Finset.card_insert_of_not_mem hnotmem, ih (nextDay s) hvn,
        Function.iterate_succ_apply]
      have hmono := (valid_iter (nextDay s) hvn n).2
      omega

/-- C6 (counterexample): for the weekly frequency, over the four calendar
days Friday 2020-01-10 through Monday 2020-01-13 the analyzer's closed form
counts `3 // 7 + 1 = 1` period, while the days touch two distinct weekly
period keys (ISO weeks 2 and 3 of 2020) and the scheduler, run over those
days, fires twice. -/
theorem weekly_closed_form_miscounts :
    periodsClosedForm "weekly" ⟨2020, 1, 10⟩ ⟨2020, 1, 13⟩ = 1 ∧
    (((dateRangeList ⟨2020, 1, 10⟩ ⟨2020, 1, 13⟩).map (periodMarker "weekly")).toFinset).card
      = 2 ∧
    fireCount none
      (((dateRangeList ⟨2020, 1, 10⟩ ⟨2020, 1, 13⟩).filter isMarketOpen).map
        (periodMarker "weekly")) = 2 := by
  refine ⟨?_, ?_, ?_⟩ <;> decide

/-- C6 (amended): for the monthly frequency, the analyzer's closed-form
period count equals the number of distinct monthly period keys touched by
the calendar days of the range, and `total_invested` is the initial cash
plus that key count times the contribution amount. -/
theorem monthly_closed_form_counts_keys (s : Date) (n : ℕ) (h : validDate s)
    (initialCash amount : ℚ) :
    periodsClosedForm "monthly" s (nextDay^[n] s) =
      ((((rangeFrom s (n + 1)).map (periodMarker "monthly")).toFinset).card : ℤ) ∧
    totalInvestedMetric initialCash amount "monthly" s (nextDay^[n] s) =
      initialCash +
        ((((rangeFrom s (n + 1)).map (periodMarker "monthly")).toFinset).card : ℚ) * amount := by
  have hcard := monthly_touched n s h
  have hmono := (valid_iter s h n).2
  have hform : periodsClosedForm "monthly" s (nextDay^[n] s)
      = ((monthIdx (nextDay^[n] s) : ℤ) - (monthIdx s : ℤ)) + 1 := by
    unfold periodsClosedForm
    rw [if_neg (by decide), if_pos rfl]
    unfold monthIdx
    push_cast
    ring
  have hpc : periodsClosedForm "monthly" s (nextDay^[n] s) =
      ((((rangeFrom s (n + 1)).map (periodMarker "monthly")).toFinset).card : ℤ) := by
    rw [hform, hcard]
    omega
  refine ⟨hpc, ?_⟩
  unfold totalInvestedMetric
  rw [hpc]
  push_cast
  ring

/-- C6 witness: starting 2020-01-15 and walking 40 days (to 2020-02-24), the
monthly closed form and the distinct monthly keys of the range both count
two periods. -/
theorem monthly_closed_form_counts_keys_witness :
    periodsClosedForm "monthly" ⟨2020, 1, 15⟩ (nextDay^[40] ⟨2020, 1, 15⟩) =
      ((((rangeFrom ⟨2020, 1, 15⟩ 41).map (periodMarker "monthly")).toFinset).card : ℤ) ∧
    totalInvestedMetric 10000 500 "monthly" ⟨2020, 1, 15⟩ (nextDay^[40] ⟨2020, 1, 15⟩) =
      10000 +
        ((((rangeFrom ⟨2020, 1, 15⟩ 41).map (periodMarker "monthly")).toFinset).card : ℚ) * 500 :=
  monthly_closed_form_counts_keys ⟨2020, 1, 15⟩ 40 (by decide) 10000 500

/-- The scheduler fold processes bars front to back. -/
theorem schedFold_cons (a : ℚ) (f : String) (d : Date) (ds : List Date) (s : StratState) :
    schedFold a f (d :: ds) s = schedFold a f ds ((addCashPeriodically a f d s).2) := rfl

/-- On a closed day the scheduler leaves the state unchanged. -/
theorem addCash_closed_snd {d : Date} (h : isMarketOpen d = false) (a : ℚ) (f : String)
    (s : StratState) : (addCashPeriodically a f d s).2 = s := by
  simp [addCashPeriodically, h]

/-- After an open day the stored period marker is the day's marker, whether
or not the scheduler fired. -/
theorem addCash_open_lastPeriod {d : Date} (h : isMarketOpen d = true) (a : ℚ) (f : String)
    (s : StratState) :
    ((addCashPeriodically a f d s).2).lastPeriod = some (periodMarker f d) := by
  simp only [addCashPeriodically]
  rw [if_neg (by simp [h])]
  by_cases hc : s.lastPeriod = none ∨ some (periodMarker f d) ≠ s.lastPeriod
  · rw [if_pos hc]
  · rw [if_neg hc]
    push_neg at hc
    exact hc.2.symm

/-- The last element of a nonempty list, as an option, via its tail. -/
theorem optGetLast_cons {α : Type} (x : α) (xs : List α) :
    (x :: xs).getLast? = optOr xs.getLast? (some x) := by
  cases xs with
  | nil => rfl
  | cons y ys =>
    rw [List.getLast?_cons_cons]
    cases h : (y :: ys).getLast? with
    | none => exact absurd h (by simp)
    | some z => rfl

/-- A closed day does not contribute to the most recent valid-bar key. -/
theorem prevValidKey_cons_closed {d : Date} (h : isMarketOpen d = false) (f : String)
    (ds : List Date) : prevValidKey f (d :: ds) = prevValidKey f ds := by
  unfold prevValidKey
  rw [List.filter_cons_of_neg (by simp [h])]

/-- An open day contributes its own key as the fallback most recent key. -/
theorem prevValidKey_cons_open {d : Date} (h : isMarketOpen d = true) (f : String)
    (ds : List Date) :
    prevValidKey f (d :: ds) = optOr (prevValidKey f ds) (some (periodMarker f d)) := by
  unfold prevValidKey
  rw [List.filter_cons_of_pos (by simp [h]), List.map_cons, optGetLast_cons]

/-- The scheduler's stored period marker after a run is the period key of
the run's most recent valid (market-open) bar, falling back to whatever was
stored before the run. -/
theorem schedFold_lastPeriod (a : ℚ) (f : String) :
    ∀ (l : List Date) (s : StratState),
      (schedFold a f l s).lastPeriod = optOr (prevValidKey f l) s.lastPeriod := by
  intro l
  induction l with
  | nil => intro s; rfl
  | cons d ds ih =>
    intro s
    rw [schedFold_cons]
    cases hopen : isMarketOpen d with
    | false =>
      rw [addCash_closed_snd hopen, ih s, prevValidKey_cons_closed hopen]
    | true =>
      rw [ih _, addCash_open_lastPeriod hopen, prevValidKey_cons_open hopen]
      cases hp : prevValidKey f ds <;> rfl

/-- Over a run, the scheduler's `total_invested` and `accumulated_cash`
both grow by the contribution amount times the number of key changes along
the sequence of valid-bar keys (the first valid key counting as a change
against whatever was stored initially). -/
theorem schedFold_totals (a : ℚ) (f : String) :
    ∀ (l : List Date) (s : StratState),
      (schedFold a f l s).totalInvested =
        s.totalInvested +
          a * (fireCount s.lastPeriod ((l.filter isMarketOpen).map (periodMarker f)) : ℚ) ∧
      (schedFold a f l s).accumulatedCash =
        s.accumulatedCash +
          a * (fireCount s.lastPeriod ((l.filter isMarketOpen).map (periodMarker f)) : ℚ) := by
  intro l
  induction l with
  | nil =>
    intro s
    constructor <;> simp [schedFold, fireCount]
  | cons d ds ih =>
    intro s
    rw [schedFold_cons]
    cases hopen : isMarketOpen d with
    | false =>
      have hfil : (d :: ds).filter isMarketOpen = ds.filter isMarketOpen := by
        simp [List.filter_cons, hopen]
      rw [addCash_closed_snd hopen, hfil]
      exact ih s
    | true =>
      have hfil : (d :: ds).filter isMarketOpen = d :: ds.filter isMarketOpen := by
        simp [List.filter_cons, hopen]
      rw [hfil, List.map_cons]
      by_cases hfire : s.lastPeriod = none ∨ some (periodMarker f d) ≠ s.lastPeriod
      · have hstep : (addCashPeriodically a f d s).2 =
            { s with
              brokerCash := s.brokerCash + a
              accumulatedCash := s.accumulatedCash + a
              totalInvested := s.totalInvested + a
              lastPeriod := some (periodMarker f d) } := by
          simp only [addCashPeriodically]
          rw [if_neg (by simp [hopen]), if_pos hfire]
        have hne : some (periodMarker f d) ≠ s.lastPeriod := by
          rcases hfire with hnone | hne
          · rw [hnone]; simp
          · exact hne
        have hcnt :
            fireCount s.lastPeriod
                (periodMarker f d :: (ds.filter isMarketOpen).map (periodMarker f))
              = 1 + fireCount (some (periodMarker f d))
                  ((ds.filter isMarketOpen).map (periodMarker f)) := by
          simp only [fireCount]
          rw [if_pos hne]
        rw [hstep, hcnt]
        constructor
        · rw [(ih _).1]
          dsimp only
          push_cast
          ring
        · rw [(ih _).2]
          dsimp only
          push_cast
          ring
      · have hstep : (addCashPeriodically a f d s).2 = s := by
          simp only [addCashPeriodically]
          rw [if_neg (by simp [hopen]), if_neg hfire]
        push_neg at hfire
        have hlast : some (periodMarker f d) = s.lastPeriod := hfire.2
        have hcnt :
            fireCount s.lastPeriod
                (periodMarker f d :: (ds.filter isMarketOpen).map (periodMarker f))
              = fireCount s.lastPeriod ((ds.filter isMarketOpen).map (periodMarker f)) := by
          simp only [fireCount]
          rw [if_neg (by rw [← hlast]; simp), zero_add, hlast]
        rw [hstep, hcnt]
        exact ih s

/-- One scheduler step, characterized against the state's stored marker: it
fires exactly on market-open days whose period key is not the stored one;
firing adds the amount to the broker's cash, the accumulated cash and the
invested total and stores the new key, and otherwise nothing changes. -/
theorem addCash_char (a : ℚ) (f : String) (d : Date) (s : StratState) :
    (addCashPeriodically a f d s).1 =
      (isMarketOpen d && decide (s.lastPeriod ≠ some (periodMarker f d))) ∧
    (addCashPeriodically a f d s).2 =
      (if isMarketOpen d && decide (s.lastPeriod ≠ some (periodMarker f d)) then
        { s with
          brokerCash := s.brokerCash + a
          accumulatedCash := s.accumulatedCash + a
          totalInvested := s.totalInvested + a
          lastPeriod := some (periodMarker f d) }
      else s) := by
  cases hopen : isMarketOpen d with
  | false =>
    constructor <;> simp [addCashPeriodically, hopen]
  | true =>
    by_cases hfire : s.lastPeriod = none ∨ some (periodMarker f d) ≠ s.lastPeriod
    · have hd : decide (s.lastPeriod ≠ some (periodMarker f d)) = true := by
        rcases hfire with h | h
        · simp [h]
        · simp only [decide_eq_true_eq]
          exact Ne.symm h
      constructor
      · simp only [addCashPeriodically]
        rw [if_neg (by simp [hopen]), if_pos hfire]
        simp [hd]
      · simp only [addCashPeriodically]
        rw [if_neg (by simp [hopen]), if_pos hfire]
        simp [hopen, hd]
    · have hlast : s.lastPeriod = some (periodMarker f d) := by
        push_neg at hfire
        exact hfire.2.symm
      have hd : decide (s.lastPeriod ≠ some (periodMarker f d)) = false := by
        simp [hlast]
      constructor
      · simp only [addCashPeriodically]
        rw [if_neg (by simp [hopen]), if_neg hfire]
        simp [hd]
      · simp only [addCashPeriodically]
        rw [if_neg (by simp [hopen]), if_neg hfire]
        simp [hd]

/-- C1 (amended): over any run of the scheduler started fresh, a bar fires a
contribution exactly when it passes the trading-day check and its period key
differs from the key of the most recent previous passing bar (always firing
when no passing bar exists yet); a firing bar adds the contribution amount
to the broker's cash, the accumulated cash and the invested total and stores
its key, a non-firing bar changes nothing; consequently the accumulated
totals of a whole run equal the amount times the number of key changes along
the passing bars' key sequence. -/
theorem scheduler_fires_iff (amount : ℚ) (freq : String) (c : ℚ) (l : List Date) (d : Date) :
    (addCashPeriodically amount freq d (schedFold amount freq l (initState c))).1 =
      (isMarketOpen d && decide (prevValidKey freq l ≠ some (periodMarker freq d))) ∧
    (addCashPeriodically amount freq d (schedFold amount freq l (initState c))).2 =
      (if isMarketOpen d && decide (prevValidKey freq l ≠ some (periodMarker freq d)) then
        { schedFold amount freq l (initState c) with
          brokerCash := (schedFold amount freq l (initState c)).brokerCash + amount
          accumulatedCash := (schedFold amount freq l (initState c)).accumulatedCash + amount
          totalInvested := (schedFold amount freq l (initState c)).totalInvested + amount
          lastPeriod := some (periodMarker freq d) }
      else schedFold amount freq l (initState c)) ∧
    (schedFold amount freq l (initState c)).totalInvested =
      amount * (fireCount none ((l.filter isMarketOpen).map (periodMarker freq)) : ℚ) ∧
    (schedFold amount freq l (initState c)).accumulatedCash =
      amount * (fireCount none ((l.filter isMarketOpen).map (periodMarker freq)) : ℚ) := by
  have hsl : (schedFold amount freq l (initState c)).lastPeriod = prevValidKey freq l := by
    rw [schedFold_lastPeriod]
    cases hp : prevValidKey freq l <;> rfl
  have hchar := addCash_char amount freq d (schedFold amount freq l (initState c))
  rw [hsl] at hchar
  have htot := schedFold_totals amount freq l (initState c)
  refine ⟨hchar.1, hchar.2, ?_, ?_⟩
  · rw [htot.1]
    show (0 : ℚ) + _ = _
    rw [zero_add]
    rfl
  · rw [htot.2]
    show (0 : ℚ) + _ = _
    rw [zero_add]
    rfl

end Backtesting
